import Mathlib

/-!
Verification development for an RTTY (FSK/ITA2) demodulator-decoder.

The repository contains two near-duplicate decoder files:
* `RTTY_RCV.py` — batch decoder (`decode_bits` with an accumulation buffer);
* `RTTY_RCV_19.py` — streaming decoder (index-based `decode_bits`, plus
  `_process_decoding` that polls a bit backlog).

This file shallowly embeds the bit-level decoding pipeline of both files:
the codebooks (`MODE_SWITCH`, `ITA2_MODES`), the 5-bit character decoder
(`_decode_ita2_char`), both `decode_bits` variants, the streaming poll
(`_process_decoding` with its newline formatting), the preprocessing
normalization of `decode`, the band-energy decision of `_detect_frequency`,
and the derived `n_samples_per_bit` configuration value.

Python dictionaries built from literals with repeated keys keep the last
binding; the tables are embedded as association lists in source order and
looked up with a last-binding-wins lookup (`dictLookup`).
-/

/-- The three ITA2 shift modes: `'LAT'`, `'RUS'`, `'FIGS'` in the source. -/
inductive Mode
  | LAT
  | RUS
  | FIGS
deriving DecidableEq

/-- Result of `_decode_ita2_char`: in Python it returns either one of the
strings `'RUS'`/`'FIGS'`/`'LAT'` (a mode switch) or a single character.
`decode_bits` distinguishes the two by comparing against the mode names;
table characters are single characters, so the two cases never collide and
are modelled as a sum. -/
inductive ItaChar
  | sw (m : Mode)
  | ch (c : Char)
deriving DecidableEq

/-- `MODE_SWITCH`: the three reserved 5-bit codes that change the active
mode (identical in both source files). -/
def MODE_SWITCH : List (List Nat × Mode) :=
  [([0, 0, 0, 0, 0], Mode.RUS),
   ([1, 1, 0, 1, 1], Mode.FIGS),
   ([1, 1, 1, 1, 1], Mode.LAT)]

/-- `ITA2_MODES['LAT']`, identical in both source files, in source order. -/
def ita2LAT : List (List Nat × Char) :=
  [([1, 1, 0, 0, 0], 'A'), ([1, 0, 0, 1, 1], 'B'), ([0, 1, 1, 1, 0], 'C'),
   ([1, 0, 0, 1, 0], 'D'), ([1, 0, 0, 0, 0], 'E'), ([1, 0, 1, 1, 0], 'F'),
   ([0, 1, 0, 1, 1], 'G'), ([0, 0, 1, 0, 1], 'H'), ([0, 1, 1, 0, 0], 'I'),
   ([1, 1, 0, 1, 0], 'J'), ([1, 1, 1, 1, 0], 'K'), ([0, 1, 0, 0, 1], 'L'),
   ([0, 0, 1, 1, 1], 'M'), ([0, 0, 1, 1, 0], 'N'), ([0, 0, 0, 1, 1], 'O'),
   ([0, 1, 1, 0, 1], 'P'), ([1, 1, 1, 0, 1], 'Q'), ([0, 1, 0, 1, 0], 'R'),
   ([1, 0, 1, 0, 0], 'S'), ([0, 0, 0, 0, 1], 'T'), ([1, 1, 1, 0, 0], 'U'),
   ([0, 1, 1, 1, 1], 'V'), ([1, 1, 0, 0, 1], 'W'), ([1, 0, 1, 1, 1], 'X'),
   ([1, 0, 1, 0, 1], 'Y'), ([1, 0, 0, 0, 1], 'Z'), ([0, 0, 1, 0, 0], ' '),
   ([0, 0, 0, 1, 0], '\r'), ([0, 1, 0, 0, 0], '\n')]

/-- `ITA2_MODES['RUS']` of the streaming file `RTTY_RCV_19.py`, in source
order.  Note the literal binds the key `(1,0,1,1,1)` twice ('Ъ' and 'Ь'). -/
def ita2RUSStream : List (List Nat × Char) :=
  [([1, 1, 0, 0, 0], 'А'), ([1, 0, 0, 1, 1], 'Б'), ([1, 1, 0, 0, 1], 'В'),
   ([0, 1, 0, 1, 1], 'Г'), ([1, 0, 0, 1, 0], 'Д'), ([1, 0, 0, 0, 0], 'Е'),
   ([0, 1, 1, 1, 1], 'Ж'), ([1, 0, 0, 0, 1], 'З'), ([0, 1, 1, 0, 0], 'И'),
   ([1, 1, 0, 1, 0], 'Й'), ([1, 1, 1, 1, 0], 'К'), ([0, 1, 0, 0, 1], 'Л'),
   ([0, 0, 1, 1, 1], 'М'), ([0, 0, 1, 1, 0], 'Н'), ([0, 0, 0, 1, 1], 'О'),
   ([0, 1, 1, 0, 1], 'П'), ([0, 1, 0, 1, 0], 'Р'), ([1, 0, 1, 0, 0], 'С'),
   ([0, 0, 0, 0, 1], 'Т'), ([1, 1, 1, 0, 0], 'У'), ([1, 0, 1, 1, 0], 'Ф'),
   ([0, 0, 1, 0, 1], 'Х'), ([0, 1, 1, 1, 0], 'Ц'), ([1, 0, 1, 1, 1], 'Ъ'),
   ([1, 0, 1, 0, 1], 'Ы'), ([1, 0, 1, 1, 1], 'Ь'), ([1, 1, 1, 0, 1], 'Я'),
   ([0, 0, 0, 1, 0], '\r'), ([0, 1, 0, 0, 0], '\n')]

/-- `ITA2_MODES['RUS']` of the batch file `RTTY_RCV.py`, in source order.
Besides the repeated `(1,0,1,1,1)` it also binds `(1,0,0,0,0)` twice
('Е' and 'Ё'). -/
def ita2RUSBatch : List (List Nat × Char) :=
  [([1, 1, 0, 0, 0], 'А'), ([1, 0, 0, 1, 1], 'Б'), ([1, 1, 0, 0, 1], 'В'),
   ([0, 1, 0, 1, 1], 'Г'), ([1, 0, 0, 1, 0], 'Д'), ([1, 0, 0, 0, 0], 'Е'),
   ([0, 1, 1, 1, 1], 'Ж'), ([1, 0, 0, 0, 1], 'З'), ([0, 1, 1, 0, 0], 'И'),
   ([1, 1, 0, 1, 0], 'Й'), ([1, 1, 1, 1, 0], 'К'), ([0, 1, 0, 0, 1], 'Л'),
   ([0, 0, 1, 1, 1], 'М'), ([0, 0, 1, 1, 0], 'Н'), ([0, 0, 0, 1, 1], 'О'),
   ([0, 1, 1, 0, 1], 'П'), ([0, 1, 0, 1, 0], 'Р'), ([1, 0, 1, 0, 0], 'С'),
   ([0, 0, 0, 0, 1], 'Т'), ([1, 1, 1, 0, 0], 'У'), ([1, 0, 1, 1, 0], 'Ф'),
   ([0, 0, 1, 0, 1], 'Х'), ([0, 1, 1, 1, 0], 'Ц'), ([1, 0, 1, 1, 1], 'Ъ'),
   ([1, 0, 1, 0, 1], 'Ы'), ([1, 0, 1, 1, 1], 'Ь'), ([1, 1, 1, 0, 1], 'Я'),
   ([1, 0, 0, 0, 0], 'Ё'),
   ([0, 0, 0, 1, 0], '\r'), ([0, 1, 0, 0, 0], '\n')]

/-- `ITA2_MODES['FIGS']`, identical in both source files, in source order.
Note the literal binds the key `(0,1,0,1,0)` twice ('4' and 'Ч'). -/
def ita2FIGS : List (List Nat × Char) :=
  [([0, 1, 1, 0, 1], '0'), ([1, 1, 1, 0, 1], '1'), ([1, 1, 0, 0, 1], '2'),
   ([1, 0, 0, 0, 0], '3'), ([0, 1, 0, 1, 0], '4'), ([0, 0, 0, 0, 1], '5'),
   ([1, 0, 1, 0, 1], '6'), ([1, 1, 1, 0, 0], '7'), ([0, 1, 1, 0, 0], '8'),
   ([0, 0, 0, 1, 1], '9'), ([1, 1, 0, 0, 0], '-'), ([1, 0, 0, 0, 1], '+'),
   ([1, 0, 0, 1, 1], '?'), ([0, 1, 1, 1, 0], ':'), ([1, 1, 1, 1, 0], '('),
   ([0, 1, 0, 0, 1], ')'), ([0, 0, 1, 1, 1], '.'), ([0, 0, 1, 1, 0], ','),
   ([0, 1, 1, 1, 1], '/'), ([0, 0, 1, 0, 0], ' '),
   ([0, 1, 0, 1, 1], 'Ш'), ([0, 0, 1, 0, 1], 'Щ'), ([1, 0, 1, 1, 0], 'Э'),
   ([1, 1, 0, 1, 0], 'Ю'), ([0, 1, 0, 1, 0], 'Ч'),
   ([0, 0, 0, 1, 0], '\r'), ([0, 1, 0, 0, 0], '\n')]

/-- `ITA2_MODES` of the streaming file, as a map from mode to its table. -/
def ita2Table : Mode → List (List Nat × Char)
  | Mode.LAT => ita2LAT
  | Mode.RUS => ita2RUSStream
  | Mode.FIGS => ita2FIGS

/-- `ITA2_MODES` of the batch file (only the RUS table differs). -/
def ita2TableBatch : Mode → List (List Nat × Char)
  | Mode.LAT => ita2LAT
  | Mode.RUS => ita2RUSBatch
  | Mode.FIGS => ita2FIGS

/-- Lookup in an association list with the semantics of a Python dict built
from a literal: a later binding of the same key overrides an earlier one. -/
def dictLookup {α β : Type} [DecidableEq α] : List (α × β) → α → Option β
  | [], _ => none
  | (k, v) :: rest, key =>
    match dictLookup rest key with
    | some v2 => some v2
    | none => if key = k then some v else none

/-- `_decode_ita2_char`, identical in both files up to the table constant:
check the mode-switch table first, then the table of the current mode, else
placeholder `'?'`.  (The Python guard `current_mode in self.ITA2_MODES` is
always true, the mode being one of the three keys.) -/
def decodeIta2CharWith (tables : Mode → List (List Nat × Char))
    (code : List Nat) (mode : Mode) : ItaChar :=
  match dictLookup MODE_SWITCH code with
  | some m => ItaChar.sw m
  | none =>
    match dictLookup (tables mode) code with
    | some c => ItaChar.ch c
    | none => ItaChar.ch '?'

/-- `_decode_ita2_char` of the streaming file `RTTY_RCV_19.py`. -/
def decode_ita2_char (code : List Nat) (mode : Mode) : ItaChar :=
  decodeIta2CharWith ita2Table code mode

/-- `_decode_ita2_char` of the batch file `RTTY_RCV.py`. -/
def decode_ita2_char_batch (code : List Nat) (mode : Mode) : ItaChar :=
  decodeIta2CharWith ita2TableBatch code mode

/-- Length of the run of consecutive `1` bits at the front of a bit list:
the `while j < len(bits) and bits[j] == 1` stop-bit scan, applied to the
suffix starting at `j`. -/
def countOnes : List Nat → Nat
  | [] => 0
  | b :: rest => if b = 1 then countOnes rest + 1 else 0

/-- The `while i < len(bits) - 6` loop of the streaming `decode_bits`
(`RTTY_RCV_19.py`), embedded on the suffix of the bit list starting at the
loop index `i` (so `l = bits[i:]`; the loop guard `i < len(bits) - 6` is
`7 ≤ l.length`).  Returns `(emitted characters, bits consumed, final mode)`;
the final mode models the `self.current_mode` attribute, which the method
keeps equal to its local `current_mode`.  The structural `fuel` argument
makes the recursion total; each iteration consumes at least one bit, so
`fuel = l.length` never runs out (`decodeFrom_congr`). -/
def decodeFrom : Nat → List Nat → Mode → List Char × Nat × Mode
  | 0, _, mode => ([], 0, mode)
  | fuel + 1, l, mode =>
    if 7 ≤ l.length then
      if l.getD 0 2 ≠ 0 then
        -- start bit not 0: `i += 1; continue`
        let r := decodeFrom fuel (l.drop 1) mode
        (r.1, r.2.1 + 1, r.2.2)
      else
        -- `data_bits = bits[i+1:i+6]`, stop-bit scan from `j = i + 6`
        let k := countOnes (l.drop 6)
        if k = 0 then
          -- no stop bit: `i += 1; continue`
          let r := decodeFrom fuel (l.drop 1) mode
          (r.1, r.2.1 + 1, r.2.2)
        else
          match decode_ita2_char ((l.drop 1).take 5) mode with
          | ItaChar.sw m2 =>
            let r := decodeFrom fuel (l.drop (6 + k)) m2
            (r.1, r.2.1 + (6 + k), r.2.2)
          | ItaChar.ch c =>
            let r := decodeFrom fuel (l.drop (6 + k)) mode
            (c :: r.1, r.2.1 + (6 + k), r.2.2)
    else ([], 0, mode)

/-- Streaming `decode_bits` at character-list level. -/
def decode19 (bits : List Nat) (mode : Mode) : List Char × Nat × Mode :=
  decodeFrom bits.length bits mode

/-- Streaming `decode_bits` (`RTTY_RCV_19.py`): returns
`(''.join(text), i)` plus the persisted `self.current_mode`. -/
def decode_bits (bits : List Nat) (mode : Mode) : String × Nat × Mode :=
  ((decode19 bits mode).1.asString, (decode19 bits mode).2.1, (decode19 bits mode).2.2)

example : decode_bits [0, 1, 1, 0, 0, 0, 1, 1] Mode.LAT = ("A", 8, Mode.LAT) := by decide
example : decode_bits [0, 1, 1, 0, 1, 1, 1, 0, 0, 0, 0, 0, 1, 1] Mode.LAT
    = ("5", 14, Mode.FIGS) := by decide
example : decode_bits [0, 1, 1, 0, 0, 0, 0, 1] Mode.LAT = ("", 2, Mode.LAT) := by decide
example : decode_bits [0, 1, 1, 0, 1, 1, 1] Mode.LAT = ("", 7, Mode.FIGS) := by decide

/-- `countOnes` never exceeds the list length. -/
theorem countOnes_le_length (l : List Nat) : countOnes l ≤ l.length := by
  induction l with
  | nil => simp [countOnes]
  | cons b rest ih =>
    simp only [countOnes, List.length_cons]
    split
    · omega
    · omega

/-- The fuel argument of `decodeFrom` is irrelevant once it is at least the
length of the bit list: every iteration of the source loop consumes at
least one bit. -/
theorem decodeFrom_congr : ∀ (f g : Nat) (l : List Nat) (m : Mode),
    l.length ≤ f → l.length ≤ g → decodeFrom f l m = decodeFrom g l m := by
  intro f
  induction f with
  | zero =>
    intro g l m hf _
    have hl : l = [] := List.length_eq_zero.mp (Nat.le_zero.mp hf)
    subst hl
    cases g with
    | zero => rfl
    | succ g => simp [decodeFrom]
  | succ f ih =>
    intro g l m hf hg
    cases g with
    | zero =>
      have hl : l = [] := List.length_eq_zero.mp (Nat.le_zero.mp hg)
      subst hl
      simp [decodeFrom]
    | succ g =>
      simp only [decodeFrom]
      by_cases h7 : 7 ≤ l.length
      · have hd1 : (l.drop 1).length ≤ f := by simp [List.length_drop]; omega
        have hd1g : (l.drop 1).length ≤ g := by simp [List.length_drop]; omega
        have hdk : ∀ j, (l.drop (6 + j)).length ≤ f := by
          intro j; simp [List.length_drop]; omega
        have hdkg : ∀ j, (l.drop (6 + j)).length ≤ g := by
          intro j; simp [List.length_drop]; omega
        simp only [if_pos h7]
        by_cases hb : l.getD 0 2 ≠ 0
        · simp only [if_pos hb, ih g (l.drop 1) m hd1 hd1g]
        · simp only [if_neg hb]
          by_cases hk : countOnes (l.drop 6) = 0
          · simp only [if_pos hk, ih g (l.drop 1) m hd1 hd1g]
          · simp only [if_neg hk]
            cases hc : decode_ita2_char ((l.drop 1).take 5) m with
            | sw m2 =>
              simp only [ih g (l.drop (6 + countOnes (l.drop 6))) m2 (hdk _) (hdkg _)]
            | ch c =>
              simp only [ih g (l.drop (6 + countOnes (l.drop 6))) m (hdk _) (hdkg _)]
      · simp only [if_neg h7]

/-- Exit step: fewer than 7 bits remain, the loop guard fails. -/
theorem decode19_short (l : List Nat) (m : Mode) (h : l.length < 7) :
    decode19 l m = ([], 0, m) := by
  unfold decode19
  cases hf : l.length with
  | zero => rfl
  | succ n =>
    simp only [decodeFrom]
    rw [if_neg (by omega)]

/-- Skip step: the candidate start bit is nonzero, the loop discards one
bit and retries at the next index. -/
theorem decode19_skip (l : List Nat) (m : Mode) (h7 : 7 ≤ l.length)
    (hb : l.getD 0 2 ≠ 0) :
    decode19 l m = ((decode19 (l.drop 1) m).1,
      (decode19 (l.drop 1) m).2.1 + 1, (decode19 (l.drop 1) m).2.2) := by
  unfold decode19
  obtain ⟨n, hn⟩ : ∃ n, l.length = n + 1 := ⟨l.length - 1, by omega⟩
  rw [hn]
  simp only [decodeFrom]
  rw [if_pos (hn ▸ h7), if_pos hb]
  have hlen : (l.drop 1).length ≤ n := by simp [List.length_drop]; omega
  rw [decodeFrom_congr n (l.drop 1).length (l.drop 1) m hlen le_rfl]

/-- Failed-framing step: start bit 0 but no 1 bit at the stop position
(`stop_length = 0`); the loop advances exactly one bit and retries. -/
theorem decode19_nostop (l : List Nat) (m : Mode) (h7 : 7 ≤ l.length)
    (hb : l.getD 0 2 = 0) (hk : countOnes (l.drop 6) = 0) :
    decode19 l m = ((decode19 (l.drop 1) m).1,
      (decode19 (l.drop 1) m).2.1 + 1, (decode19 (l.drop 1) m).2.2) := by
  unfold decode19
  obtain ⟨n, hn⟩ : ∃ n, l.length = n + 1 := ⟨l.length - 1, by omega⟩
  rw [hn]
  simp only [decodeFrom]
  rw [if_pos (hn ▸ h7), if_neg (by simp only [ne_eq, not_not]; exact hb), if_pos hk]
  have hlen : (l.drop 1).length ≤ n := by simp [List.length_drop]; omega
  rw [decodeFrom_congr n (l.drop 1).length (l.drop 1) m hlen le_rfl]

/-- Completed-frame step, mode-switch case: the 5 data bits of the frame decode
to a mode switch; no character is emitted, the mode changes, and the start
bit, data bits and stop run are consumed. -/
theorem decode19_frame_sw (l : List Nat) (m m2 : Mode) (h7 : 7 ≤ l.length)
    (hb : l.getD 0 2 = 0) (hk : countOnes (l.drop 6) ≠ 0)
    (hc : decode_ita2_char ((l.drop 1).take 5) m = ItaChar.sw m2) :
    decode19 l m = ((decode19 (l.drop (6 + countOnes (l.drop 6))) m2).1,
      (decode19 (l.drop (6 + countOnes (l.drop 6))) m2).2.1 + (6 + countOnes (l.drop 6)),
      (decode19 (l.drop (6 + countOnes (l.drop 6))) m2).2.2) := by
  unfold decode19
  obtain ⟨n, hn⟩ : ∃ n, l.length = n + 1 := ⟨l.length - 1, by omega⟩
  rw [hn]
  simp only [decodeFrom]
  rw [if_pos (hn ▸ h7), if_neg (by simp only [ne_eq, not_not]; exact hb), if_neg hk, hc]
  have hlen : (l.drop (6 + countOnes (l.drop 6))).length ≤ n := by
    simp [List.length_drop]; omega
  dsimp only
  rw [decodeFrom_congr n (l.drop (6 + countOnes (l.drop 6))).length _ m2 hlen le_rfl]

/-- Completed-frame step, literal-character case: the character is emitted
and the bits of the frame (start + data + stop run) are consumed. -/
theorem decode19_frame_ch (l : List Nat) (m : Mode) (c : Char) (h7 : 7 ≤ l.length)
    (hb : l.getD 0 2 = 0) (hk : countOnes (l.drop 6) ≠ 0)
    (hc : decode_ita2_char ((l.drop 1).take 5) m = ItaChar.ch c) :
    decode19 l m = (c :: (decode19 (l.drop (6 + countOnes (l.drop 6))) m).1,
      (decode19 (l.drop (6 + countOnes (l.drop 6))) m).2.1 + (6 + countOnes (l.drop 6)),
      (decode19 (l.drop (6 + countOnes (l.drop 6))) m).2.2) := by
  unfold decode19
  obtain ⟨n, hn⟩ : ∃ n, l.length = n + 1 := ⟨l.length - 1, by omega⟩
  rw [hn]
  simp only [decodeFrom]
  rw [if_pos (hn ▸ h7), if_neg (by simp only [ne_eq, not_not]; exact hb), if_neg hk, hc]
  have hlen : (l.drop (6 + countOnes (l.drop 6))).length ≤ n := by
    simp [List.length_drop]; omega
  dsimp only
  rw [decodeFrom_congr n (l.drop (6 + countOnes (l.drop 6))).length _ m hlen le_rfl]

/-- Loop state of the batch `decode_bits` (`RTTY_RCV.py`): the input index
`i`, the accumulation buffer `bit_buffer`, the local `current_mode` and the
output list `text`. -/
structure BatchState where
  i : Nat
  buffer : List Nat
  mode : Mode
  text : List Char
deriving DecidableEq

/-- The `while i < len(bits)` loop of the batch `decode_bits`
(`RTTY_RCV.py`), with a structural fuel argument.  One branch of the source
loop (`bit_buffer[0] != 0` at buffer length ≥ 7) does not advance `i`
(`continue` without `i += 1`); `decodeBatchAux` returns `none` when the
fuel runs out before the loop exits, so a `some` result with fuel
`bits.length` certifies that every executed iteration advanced `i`. -/
def decodeBatchAux (bits : List Nat) : Nat → BatchState → Option (List Char)
  | 0, s => if s.i < bits.length then none else some s.text
  | fuel + 1, s =>
    if s.i < bits.length then
      let bit := bits.getD s.i 2
      let buf := s.buffer ++ [bit]
      if buf.length = 1 ∧ bit ≠ 0 then
        -- not a start bit: reset the buffer, `i += 1`
        decodeBatchAux bits fuel ⟨s.i + 1, [], s.mode, s.text⟩
      else if 7 ≤ buf.length then
        if buf.getD 0 2 ≠ 0 then
          -- source: `bit_buffer = []; continue` (no index advance)
          decodeBatchAux bits fuel ⟨s.i, [], s.mode, s.text⟩
        else
          -- `data_bits = bit_buffer[1:6]`, stop scan from `j = i`
          let k := countOnes (bits.drop s.i)
          if 1 ≤ k then
            match decode_ita2_char_batch ((buf.drop 1).take 5) s.mode with
            | ItaChar.sw m2 => decodeBatchAux bits fuel ⟨s.i + k, [], m2, s.text⟩
            | ItaChar.ch c =>
              decodeBatchAux bits fuel ⟨s.i + k, [], s.mode, s.text ++ [c]⟩
          else
            -- no stop bit: keep accumulating, `i += 1`
            decodeBatchAux bits fuel ⟨s.i + 1, buf, s.mode, s.text⟩
      else
        decodeBatchAux bits fuel ⟨s.i + 1, buf, s.mode, s.text⟩
    else some s.text

/-- Batch `decode_bits` (`RTTY_RCV.py`): start at index 0 with an empty
buffer, mode `'LAT'` and empty text. -/
def decode_bits_batch (bits : List Nat) : Option (List Char) :=
  decodeBatchAux bits bits.length ⟨0, [], Mode.LAT, []⟩

example : decode_bits_batch [0, 1, 1, 0, 0, 0, 1, 1] = some ['A'] := by decide
example : decode_bits_batch [0, 1, 1, 0, 0, 0, 0, 1] = some ['A'] := by decide
example : decode_bits_batch [0, 1, 1, 0, 1, 1, 1, 0, 0, 0, 0, 0, 1, 1] = some ['5'] := by decide

/-- Invariant-based totality of the batch loop: whenever the accumulation
buffer is empty or starts with a 0 bit, the loop reaches its exit within
`bits.length - s.i` iterations, because the buffer-reset branch (the only
one that does not advance `i`) requires a nonzero first buffer element and
is therefore unreachable. -/
theorem decodeBatchAux_total (bits : List Nat) :
    ∀ (fuel : Nat) (s : BatchState),
      bits.length ≤ fuel + s.i →
      (s.buffer = [] ∨ s.buffer.getD 0 2 = 0) →
      ∃ t, decodeBatchAux bits fuel s = some t := by
  intro fuel
  induction fuel with
  | zero =>
    intro s hf _
    simp only [decodeBatchAux]
    rw [if_neg (by omega)]
    exact ⟨s.text, rfl⟩
  | succ fuel ih =>
    intro s hf hinv
    simp only [decodeBatchAux]
    by_cases hi : s.i < bits.length
    · rw [if_pos hi]
      by_cases h1 : (s.buffer ++ [bits.getD s.i 2]).length = 1 ∧ bits.getD s.i 2 ≠ 0
      · rw [if_pos h1]
        exact ih ⟨s.i + 1, [], s.mode, s.text⟩ (by simp; omega) (Or.inl rfl)
      · rw [if_neg h1]
        have hbuf0 : (s.buffer ++ [bits.getD s.i 2]).getD 0 2 = 0 := by
          rcases hinv with hnil | hz
          · rw [hnil, List.nil_append]
            have hb : bits.getD s.i 2 = 0 := by
              by_contra hbne
              exact h1 ⟨by simp [hnil], hbne⟩
            exact hb
          · have hne : s.buffer ≠ [] := by
              intro hcon
              rw [hcon] at hz
              simp [List.getD] at hz
            have hlen : 0 < s.buffer.length := List.length_pos.mpr hne
            rw [List.getD_append _ _ _ _ hlen]
            exact hz
        by_cases h7 : 7 ≤ (s.buffer ++ [bits.getD s.i 2]).length
        · rw [if_pos h7, if_neg (by simp only [ne_eq, not_not]; exact hbuf0)]
          by_cases hk1 : 1 ≤ countOnes (bits.drop s.i)
          · rw [if_pos hk1]
            cases hc : decode_ita2_char_batch
                (((s.buffer ++ [bits.getD s.i 2]).drop 1).take 5) s.mode with
            | sw m2 =>
              exact ih ⟨s.i + countOnes (bits.drop s.i), [], m2, s.text⟩
                (by simp; omega) (Or.inl rfl)
            | ch c =>
              exact ih ⟨s.i + countOnes (bits.drop s.i), [], s.mode, s.text ++ [c]⟩
                (by simp; omega) (Or.inl rfl)
          · rw [if_neg hk1]
            exact ih ⟨s.i + 1, s.buffer ++ [bits.getD s.i 2], s.mode, s.text⟩
              (by simp; omega) (Or.inr hbuf0)
        · rw [if_neg h7]
          exact ih ⟨s.i + 1, s.buffer ++ [bits.getD s.i 2], s.mode, s.text⟩
            (by simp; omega) (Or.inr hbuf0)
    · rw [if_neg hi]
      exact ⟨s.text, rfl⟩

/-- C10: The batch-variant bit-to-text decoder terminates for every finite
input bit sequence.  `decode_bits_batch` runs the loop with fuel
`bits.length` and returns `none` exactly when an execution fails to exit
within that many iterations; since only the (unreachable) buffer-reset
branch fails to advance the index, the result is always `some`.  Proved via
the invariant that the accumulation buffer is empty or starts with a 0 bit
(`decodeBatchAux_total`). -/
theorem c10_batch_decode_terminates (bits : List Nat) :
    ∃ t, decode_bits_batch bits = some t :=
  decodeBatchAux_total bits bits.length ⟨0, [], Mode.LAT, []⟩ (by omega) (Or.inl rfl)

/-- C1 (amended, streaming variant): when at least 7 bits remain, the
current bit is a start bit (0) and there is no 1 bit immediately after the
5 data bits (stop length 0), the streaming `decode_bits` emits nothing for
this frame, advances exactly one bit past the start-bit position, and
continues as a fresh start-bit search there: the decode of `l` equals the
decode of `l.drop 1` with one more consumed bit. -/
theorem c1_stream_resync (l : List Nat) (m : Mode) (h7 : 7 ≤ l.length)
    (hstart : l.getD 0 2 = 0) (hstop : countOnes (l.drop 6) = 0) :
    decode19 l m = ((decode19 (l.drop 1) m).1,
      (decode19 (l.drop 1) m).2.1 + 1, (decode19 (l.drop 1) m).2.2) :=
  decode19_nostop l m h7 hstart hstop

/-- Witness for `c1_stream_resync` at the concrete input
`[0,1,1,0,0,0,0,1]` (start bit 0, data `1,1,0,0,0`, a 0 at the stop
position). -/
theorem c1_stream_resync_witness :
    7 ≤ ([0, 1, 1, 0, 0, 0, 0, 1] : List Nat).length ∧
    ([0, 1, 1, 0, 0, 0, 0, 1] : List Nat).getD 0 2 = 0 ∧
    countOnes (([0, 1, 1, 0, 0, 0, 0, 1] : List Nat).drop 6) = 0 ∧
    decode19 [0, 1, 1, 0, 0, 0, 0, 1] Mode.LAT
      = ((decode19 (([0, 1, 1, 0, 0, 0, 0, 1] : List Nat).drop 1) Mode.LAT).1,
         (decode19 (([0, 1, 1, 0, 0, 0, 0, 1] : List Nat).drop 1) Mode.LAT).2.1 + 1,
         (decode19 (([0, 1, 1, 0, 0, 0, 0, 1] : List Nat).drop 1) Mode.LAT).2.2) :=
  ⟨by decide, by decide, by decide,
    c1_stream_resync [0, 1, 1, 0, 0, 0, 0, 1] Mode.LAT (by decide) (by decide) (by decide)⟩

/-- C1 counterexample (batch variant): on `[0,1,1,0,0,0,0,1]` the frame
starting at index 0 has start bit 0, data bits `1,1,0,0,0` and a 0 at the
stop position (stop length 0), yet the batch `decode_bits` emits `'A'` for
exactly those data bits: it keeps them in the accumulation buffer, finds
the 1 bit one position later, and treats it as the stop bit — it does not
advance one bit and resume the start-bit search as the claim states. -/
theorem c1_batch_counterexample :
    ([0, 1, 1, 0, 0, 0, 0, 1] : List Nat).getD 0 2 = 0 ∧
    countOnes (([0, 1, 1, 0, 0, 0, 0, 1] : List Nat).drop 6) = 0 ∧
    decode_bits_batch [0, 1, 1, 0, 0, 0, 0, 1] = some ['A'] := by decide

/-- C3: `_decode_ita2_char` consults the mode-switch table with priority:
if the 5-bit code is a mode-switch code the result is that mode switch and
no literal character, whatever the mode tables contain (the statement is
universally quantified over the tables, so a code reused in the active
literal table of the active mode cannot fall through); otherwise the result is the
character bound in the table of the active mode, or the placeholder `'?'` when
absent.  The operation is a total function: it never fails. -/
theorem c3_mode_switch_priority (tables : Mode → List (List Nat × Char))
    (code : List Nat) (mode : Mode) :
    (∀ m, dictLookup MODE_SWITCH code = some m →
      decodeIta2CharWith tables code mode = ItaChar.sw m) ∧
    (dictLookup MODE_SWITCH code = none →
      decodeIta2CharWith tables code mode
        = ItaChar.ch ((dictLookup (tables mode) code).getD '?')) := by
  constructor
  · intro m hm
    unfold decodeIta2CharWith
    rw [hm]
  · intro hnone
    unfold decodeIta2CharWith
    rw [hnone]
    cases h : dictLookup (tables mode) code <;> simp

/-- Witness for `c3_mode_switch_priority`: the FIGS switch code decodes to
a mode switch from `LAT` in the streaming tables, the code `(0,0,0,0,1)`
decodes to `'5'` in FIGS mode, and a code absent from every table decodes
to the placeholder `'?'`. -/
theorem c3_mode_switch_priority_witness :
    decode_ita2_char [1, 1, 0, 1, 1] Mode.LAT = ItaChar.sw Mode.FIGS ∧
    decode_ita2_char [0, 0, 0, 0, 1] Mode.FIGS = ItaChar.ch '5' ∧
    decode_ita2_char [1, 1, 1, 1, 0, 0] Mode.LAT = ItaChar.ch '?' :=
  ⟨(c3_mode_switch_priority ita2Table [1, 1, 0, 1, 1] Mode.LAT).1 Mode.FIGS (by decide),
   (c3_mode_switch_priority ita2Table [0, 0, 0, 0, 1] Mode.FIGS).2 (by decide),
   (c3_mode_switch_priority ita2Table [1, 1, 1, 1, 0, 0] Mode.LAT).2 (by decide)⟩

/-- The decision of `_detect_frequency` (`RTTY_RCV_19.py`) as a function of
the two computed band energies (modelled as exact rationals): the
hysteresis test `abs(mark_energy - space_energy) < 0.2 * (mark_energy +
space_energy)` selects between two branches that return the same
comparison.  `true` models `'mark'` (bit 1), `false` models `'space'`
(bit 0). -/
def detect_frequency_decision (markEnergy spaceEnergy : ℚ) : Bool :=
  if |markEnergy - spaceEnergy| < (2 : ℚ) / 10 * (markEnergy + spaceEnergy) then
    decide (spaceEnergy < markEnergy)
  else
    decide (spaceEnergy < markEnergy)

/-- Modelled from the spec: "a plain energy comparison — it returns mark
exactly when mark energy exceeds space energy". -/
def plainEnergyComparison (markEnergy spaceEnergy : ℚ) : Bool :=
  decide (spaceEnergy < markEnergy)

/-- C7: the output of the streaming band discriminator equals the plain energy
comparison for every pair of band energies: it returns mark (`true`)
exactly when mark energy exceeds space energy, and the hysteresis branch
never changes the returned bit. -/
theorem c7_hysteresis_noop (markEnergy spaceEnergy : ℚ) :
    detect_frequency_decision markEnergy spaceEnergy
        = plainEnergyComparison markEnergy spaceEnergy
      ∧ (detect_frequency_decision markEnergy spaceEnergy = true
        ↔ spaceEnergy < markEnergy) := by
  constructor
  · unfold detect_frequency_decision plainEnergyComparison
    split <;> rfl
  · unfold detect_frequency_decision
    split <;> simp

/-- C8 counterexample: the RUS table literal binds the key `(1,0,1,1,1)` to
both `'Ъ'` and `'Ь'` (both files), the FIGS table literal binds
`(0,1,0,1,0)` to both `'4'` and `'Ч'` (both files), and the batch-file
RUS table additionally binds `(1,0,0,0,0)` to both `'Е'` and `'Ё'`: keys do
not occur at most once, and a key is bound to two different characters. -/
theorem c8_duplicate_keys_counterexample :
    (([1, 0, 1, 1, 1], 'Ъ') ∈ ita2RUSStream ∧ ([1, 0, 1, 1, 1], 'Ь') ∈ ita2RUSStream
      ∧ ('Ъ' : Char) ≠ 'Ь') ∧
    (([0, 1, 0, 1, 0], '4') ∈ ita2FIGS ∧ ([0, 1, 0, 1, 0], 'Ч') ∈ ita2FIGS
      ∧ ('4' : Char) ≠ 'Ч') ∧
    (([1, 0, 0, 0, 0], 'Е') ∈ ita2RUSBatch ∧ ([1, 0, 0, 0, 0], 'Ё') ∈ ita2RUSBatch
      ∧ ('Е' : Char) ≠ 'Ё') := by decide

/-- C8 (amended): only the LAT table has pairwise-distinct keys; the RUS
and FIGS table literals repeat a key (bound to two different characters).
Because a Python dict literal keeps the last binding, the effective runtime
mapping is still single-valued: the duplicated keys resolve to the later
character (`'Ь'`, `'Ч'`, `'Ё'` respectively). -/
theorem c8_key_uniqueness_amended :
    (ita2LAT.map Prod.fst).Nodup ∧
    ¬(ita2RUSStream.map Prod.fst).Nodup ∧
    ¬(ita2FIGS.map Prod.fst).Nodup ∧
    ¬(ita2RUSBatch.map Prod.fst).Nodup ∧
    dictLookup ita2RUSStream [1, 0, 1, 1, 1] = some 'Ь' ∧
    dictLookup ita2FIGS [0, 1, 0, 1, 0] = some 'Ч' ∧
    dictLookup ita2RUSBatch [1, 0, 0, 0, 0] = some 'Ё' := by decide

/-- Python `int()` applied to a real value: truncation toward zero, on
exact rationals. -/
def intTrunc (x : ℚ) : ℤ := if 0 ≤ x then ⌊x⌋ else ⌈x⌉

/-- `__init__` (both files): `self.bit_duration = 1.0 / baud` and
`self.n_samples_per_bit = int(sample_rate * self.bit_duration)`, with the
real arithmetic modelled exactly on rationals. -/
def n_samples_per_bit (sample_rate baud : ℚ) : ℤ :=
  intTrunc (sample_rate * (1 / baud))

/-- Modelled from the spec: "samples-per-bit = round(sample_rate × bit
duration)", "rounded to the nearest integer" (ties rounded up). -/
def roundNearest (x : ℚ) : ℤ := ⌊x + 1 / 2⌋

/-- C9 counterexample: for sample rate 5 and baud 3 the code computes
`int(5 * (1/3)) = 1` while rounding `5/3` to the nearest integer gives 2:
the derived samples-per-bit is a truncation, not a rounding. -/
theorem c9_truncation_counterexample :
    n_samples_per_bit 5 3 = 1 ∧ roundNearest ((5 : ℚ) * (1 / 3)) = 2 := by
  constructor
  · show intTrunc ((5 : ℚ) * (1 / 3)) = 1
    rw [intTrunc, if_pos (by norm_num)]
    rw [show (5 : ℚ) * (1 / 3) = 5 / 3 by norm_num]
    rw [Int.floor_eq_iff]
    norm_num
  · rw [roundNearest]
    rw [show (5 : ℚ) * (1 / 3) + 1 / 2 = 13 / 6 by norm_num]
    rw [Int.floor_eq_iff]
    norm_num

/-- C9 (amended): the derived samples-per-bit is `sample_rate / baud`
truncated toward zero — for the admissible nonnegative rate and positive
baud this is the floor, which agrees with rounding to the nearest integer
exactly when the fractional part of `sample_rate / baud` is below one half;
for the default configuration (44100 Hz, 45.45 Bd) both give 970. -/
theorem c9_samples_per_bit_amended :
    (∀ sample_rate baud : ℚ, 0 ≤ sample_rate → 0 < baud →
      n_samples_per_bit sample_rate baud = ⌊sample_rate / baud⌋ ∧
        (Int.fract (sample_rate / baud) < 1 / 2 →
          n_samples_per_bit sample_rate baud = roundNearest (sample_rate / baud))) ∧
    n_samples_per_bit 44100 (4545 / 100) = 970 ∧
    roundNearest ((44100 : ℚ) / (4545 / 100)) = 970 := by
  refine ⟨fun r b hr hb => ?_, ?_, ?_⟩
  · have hmul : r * (1 / b) = r / b := mul_one_div r b
    have h0 : 0 ≤ r / b := div_nonneg hr hb.le
    have hfloor : n_samples_per_bit r b = ⌊r / b⌋ := by
      rw [n_samples_per_bit, hmul, intTrunc, if_pos h0]
    refine ⟨hfloor, fun hf => ?_⟩
    rw [hfloor, roundNearest]
    have hle := Int.floor_le (r / b)
    have hfr : r / b - (⌊r / b⌋ : ℚ) < 1 / 2 := by
      have hdef : Int.fract (r / b) = r / b - (⌊r / b⌋ : ℚ) := rfl
      rw [hdef] at hf
      exact hf
    symm
    rw [Int.floor_eq_iff]
    constructor
    · linarith
    · linarith
  · show intTrunc ((44100 : ℚ) * (1 / (4545 / 100))) = 970
    rw [intTrunc, if_pos (by norm_num)]
    rw [show (44100 : ℚ) * (1 / (4545 / 100)) = 98000 / 101 by norm_num]
    rw [Int.floor_eq_iff]
    norm_num
  · rw [roundNearest,
      show (44100 : ℚ) / (4545 / 100) + 1 / 2 = 196101 / 202 by norm_num]
    rw [Int.floor_eq_iff]
    norm_num

/-- Witness for `c9_samples_per_bit_amended` at the default configuration
(sample rate 44100, baud 45.45 = 4545/100). -/
theorem c9_samples_per_bit_amended_witness :
    0 ≤ (44100 : ℚ) ∧ 0 < (4545 / 100 : ℚ) ∧
    Int.fract ((44100 : ℚ) / (4545 / 100)) < 1 / 2 ∧
    n_samples_per_bit 44100 (4545 / 100) = ⌊(44100 : ℚ) / (4545 / 100)⌋ ∧
    n_samples_per_bit 44100 (4545 / 100) = roundNearest ((44100 : ℚ) / (4545 / 100)) := by
  have hfr : Int.fract ((44100 : ℚ) / (4545 / 100)) < 1 / 2 := by
    unfold Int.fract
    rw [show (44100 : ℚ) / (4545 / 100) = 98000 / 101 by norm_num]
    rw [show ⌊(98000 / 101 : ℚ)⌋ = 970 by rw [Int.floor_eq_iff]; norm_num]
    norm_num
  exact ⟨by norm_num, by norm_num, hfr,
    (c9_samples_per_bit_amended.1 44100 (4545 / 100) (by norm_num) (by norm_num)).1,
    (c9_samples_per_bit_amended.1 44100 (4545 / 100) (by norm_num) (by norm_num)).2 hfr⟩

/-- `np.max(np.abs(signal))` over a sample block (int16 samples modelled as
integers). -/
def maxAbs (signal : List Int) : Nat :=
  (signal.map Int.natAbs).foldr max 0

/-- The error numpy raises for `np.max` of a zero-length array (a
`ValueError`): the only failure the preprocessing of `decode` can produce. -/
inductive PreprocessError
  | emptyReduce
deriving DecidableEq

/-- The preprocessing steps of `decode` (`RTTY_RCV.py`): convert to float
and normalize with `signal /= np.max(np.abs(signal))`.  On a zero-length
block `np.max` raises (modelled as `Except.error`); on an all-zero block
numpy division by zero raises nothing and produces NaN samples (modelled as
`none`), and decoding proceeds on them. -/
def preprocess (signal : List Int) : Except PreprocessError (List (Option ℚ)) :=
  if signal = [] then Except.error PreprocessError.emptyReduce
  else
    Except.ok (signal.map fun x =>
      if maxAbs signal = 0 then none else some ((x : ℚ) / (maxAbs signal : ℚ)))

/-- C6: the code evaluated at the failing input.  A zero-length block does
fail (the numpy reduction error), but a non-empty silent block does NOT fail
with a distinct error: the normalization divides by the zero maximum,
yields NaN samples, and the decoder continues — contradicting the claimed
fail-fast `SilentSignal` error with no partial output. -/
theorem c6_silent_block_not_rejected :
    preprocess [] = Except.error PreprocessError.emptyReduce ∧
    preprocess [0, 0] = Except.ok [none, none] :=
  ⟨rfl, rfl⟩

/-- Result of the streaming output-formatting loop `while '\n\n' in text:
text = text.replace('\n\n', '\n')`: the loop halves runs of newlines until
none of length ≥ 2 remains, so every maximal run of newline characters
collapses to a single newline. -/
def collapseLF : List Char → List Char
  | [] => []
  | [c] => [c]
  | c1 :: c2 :: rest =>
    if c1 = '\n' ∧ c2 = '\n' then collapseLF (c2 :: rest)
    else c1 :: collapseLF (c2 :: rest)

/-- The output formatting of `_process_decoding`:
`text.replace('\r', '\n')` followed by the newline-collapsing loop. -/
def formatText (text : List Char) : List Char :=
  collapseLF (text.map fun c => if c = '\r' then '\n' else c)

/-- `_process_decoding` (`RTTY_RCV_19.py`) over the bit backlog
`demodulated_bits` and the persisted `current_mode`, returning the printed
text and the updated `(demodulated_bits, current_mode)` state.  If fewer
than 7 bits are buffered it returns at once; otherwise it runs
`decode_bits`, and only when the decoded text is non-empty does it print
the formatted text and remove the consumed bits from the backlog front.
The mode is persisted by `decode_bits` itself in either case. -/
def process_decoding (bits : List Nat) (mode : Mode) : String × List Nat × Mode :=
  if bits.length < 7 then ("", bits, mode)
  else
    let r := decode_bits bits mode
    if r.1 ≠ "" then ((formatText r.1.data).asString, bits.drop r.2.1, r.2.2)
    else ("", bits, r.2.2)

/-- C2 counterexample: the backlog `[0,1,1,0,1,1,1]` is exactly one FIGS
mode-switch frame; `decode_bits` consumes all 7 bits (and emits no text),
but the poll removes nothing from the backlog — the number of removed bits
(0) differs from the consumed count (7) reported by the synchronizer. -/
theorem c2_empty_text_no_removal_counterexample :
    (decode_bits [0, 1, 1, 0, 1, 1, 1] Mode.LAT).2.1 = 7 ∧
    process_decoding [0, 1, 1, 0, 1, 1, 1] Mode.LAT
      = ("", [0, 1, 1, 0, 1, 1, 1], Mode.FIGS) := by decide

/-- C2 (amended): a poll with at least 7 buffered bits runs the frame
synchronizer once and persists its final mode; it removes exactly the
consumed bits from the backlog front when the decoded text is non-empty,
and removes nothing when the decoded text is empty (even if bits were
consumed, e.g. by mode-switch frames). -/
theorem c2_poll_consumption_amended (bits : List Nat) (mode : Mode)
    (h7 : 7 ≤ bits.length) :
    (process_decoding bits mode).2.2 = (decode_bits bits mode).2.2 ∧
    ((decode_bits bits mode).1 ≠ "" →
      (process_decoding bits mode).2.1 = bits.drop (decode_bits bits mode).2.1) ∧
    ((decode_bits bits mode).1 = "" →
      (process_decoding bits mode).2.1 = bits) := by
  unfold process_decoding
  rw [if_neg (by omega)]
  by_cases ht : (decode_bits bits mode).1 = ""
  · simp [ht]
  · simp [ht]

/-- Witness for `c2_poll_consumption_amended` at the backlog
`[0,1,1,0,0,0,1]`, one complete `'A'` frame. -/
theorem c2_poll_consumption_amended_witness :
    7 ≤ ([0, 1, 1, 0, 0, 0, 1] : List Nat).length ∧
    (process_decoding [0, 1, 1, 0, 0, 0, 1] Mode.LAT).2.2
      = (decode_bits [0, 1, 1, 0, 0, 0, 1] Mode.LAT).2.2 ∧
    (decode_bits [0, 1, 1, 0, 0, 0, 1] Mode.LAT).1 ≠ "" ∧
    (process_decoding [0, 1, 1, 0, 0, 0, 1] Mode.LAT).2.1
      = ([0, 1, 1, 0, 0, 0, 1] : List Nat).drop
          (decode_bits [0, 1, 1, 0, 0, 0, 1] Mode.LAT).2.1 :=
  ⟨by decide,
   (c2_poll_consumption_amended [0, 1, 1, 0, 0, 0, 1] Mode.LAT (by decide)).1,
   by decide,
   (c2_poll_consumption_amended [0, 1, 1, 0, 0, 0, 1] Mode.LAT (by decide)).2.1 (by decide)⟩

/-- A run of `s` mark bits is counted in full by the stop-bit scan. -/
theorem countOnes_replicate_one (s : Nat) : countOnes (List.replicate s 1) = s := by
  induction s with
  | zero => rfl
  | succ s ih =>
    rw [List.replicate_succ]
    simp [countOnes, ih]

/-- Streaming half of the FIGS-switch-then-'5' scenario: the switch frame
`0,1,1,0,1,1,1` followed by `0,0,0,0,0,1` and `s ≥ 1` stop bits decodes
from LAT to exactly `['5']`, consuming everything, ending in FIGS. -/
theorem figsFiveStream (s : Nat) (hs : 1 ≤ s) :
    decode19 ([0, 1, 1, 0, 1, 1, 1, 0, 0, 0, 0, 0, 1] ++ List.replicate s 1) Mode.LAT
      = (['5'], 13 + s, Mode.FIGS) := by
  set bits := [0, 1, 1, 0, 1, 1, 1, 0, 0, 0, 0, 0, 1] ++ List.replicate s 1 with hbits
  have hlen : bits.length = 13 + s := by
    rw [hbits, List.length_append, List.length_replicate]
    rfl
  have hk1 : countOnes (bits.drop 6) = 1 := rfl
  have step1 : decode19 bits Mode.LAT
      = ((decode19 (bits.drop (6 + countOnes (bits.drop 6))) Mode.FIGS).1,
        (decode19 (bits.drop (6 + countOnes (bits.drop 6))) Mode.FIGS).2.1
          + (6 + countOnes (bits.drop 6)),
        (decode19 (bits.drop (6 + countOnes (bits.drop 6))) Mode.FIGS).2.2) :=
    decode19_frame_sw bits Mode.LAT Mode.FIGS (by omega) rfl
      (by rw [hk1]; exact one_ne_zero)
      (show decode_ita2_char [1, 1, 0, 1, 1] Mode.LAT = ItaChar.sw Mode.FIGS by decide)
  rw [hk1] at step1
  set l2 := bits.drop 7 with hl2
  have hlen2 : l2.length = 6 + s := by
    rw [hl2, List.length_drop, hlen]
    omega
  have hk2 : countOnes (l2.drop 6) = s := countOnes_replicate_one s
  have step2 : decode19 l2 Mode.FIGS
      = ('5' :: (decode19 (l2.drop (6 + countOnes (l2.drop 6))) Mode.FIGS).1,
        (decode19 (l2.drop (6 + countOnes (l2.drop 6))) Mode.FIGS).2.1
          + (6 + countOnes (l2.drop 6)),
        (decode19 (l2.drop (6 + countOnes (l2.drop 6))) Mode.FIGS).2.2) :=
    decode19_frame_ch l2 Mode.FIGS '5' (by omega) rfl
      (by rw [hk2]; omega)
      (show decode_ita2_char [0, 0, 0, 0, 1] Mode.FIGS = ItaChar.ch '5' by decide)
  rw [hk2] at step2
  have hnil : l2.drop (6 + s) = [] := List.drop_eq_nil_of_le (by omega)
  rw [hnil] at step2
  have hend : decode19 [] Mode.FIGS = ([], 0, Mode.FIGS) := rfl
  rw [hend] at step2
  rw [step1, step2]
  refine Prod.ext rfl (Prod.ext ?_ rfl)
  show 0 + (6 + s) + (6 + 1) = 13 + s
  omega

/-- A `some` result of the batch loop is stable under extra fuel: fuel only
bounds the number of iterations, it never changes a completed run. -/
theorem decodeBatchAux_mono (bits : List Nat) :
    ∀ (f g : Nat) (s : BatchState) (t : List Char),
      decodeBatchAux bits f s = some t → f ≤ g → decodeBatchAux bits g s = some t := by
  intro f
  induction f with
  | zero =>
    intro g s t hf _
    simp only [decodeBatchAux] at hf
    by_cases hi : s.i < bits.length
    · rw [if_pos hi] at hf
      exact absurd hf (by simp)
    · rw [if_neg hi] at hf
      cases g with
      | zero =>
        simp only [decodeBatchAux]
        rw [if_neg hi]
        exact hf
      | succ g =>
        simp only [decodeBatchAux]
        rw [if_neg hi]
        exact hf
  | succ f ih =>
    intro g s t hf hg
    obtain ⟨g2, rfl⟩ : ∃ g2, g = g2 + 1 := ⟨g - 1, by omega⟩
    simp only [decodeBatchAux] at hf ⊢
    by_cases hi : s.i < bits.length
    · rw [if_pos hi] at hf ⊢
      by_cases h1 : ((s.buffer ++ [bits.getD s.i 2]).length = 1 ∧ bits.getD s.i 2 ≠ 0)
      · rw [if_pos h1] at hf ⊢
        exact ih g2 _ t hf (by omega)
      · rw [if_neg h1] at hf ⊢
        by_cases h7 : 7 ≤ (s.buffer ++ [bits.getD s.i 2]).length
        · rw [if_pos h7] at hf ⊢
          by_cases hz : (s.buffer ++ [bits.getD s.i 2]).getD 0 2 ≠ 0
          · rw [if_pos hz] at hf ⊢
            exact ih g2 _ t hf (by omega)
          · rw [if_neg hz] at hf ⊢
            by_cases hk : 1 ≤ countOnes (bits.drop s.i)
            · rw [if_pos hk] at hf ⊢
              cases hc : decode_ita2_char_batch
                  (((s.buffer ++ [bits.getD s.i 2]).drop 1).take 5) s.mode with
              | sw m2 =>
                rw [hc] at hf
                exact ih g2 _ t hf (by omega)
              | ch c =>
                rw [hc] at hf
                exact ih g2 _ t hf (by omega)
            · rw [if_neg hk] at hf ⊢
              exact ih g2 _ t hf (by omega)
        · rw [if_neg h7] at hf ⊢
          exact ih g2 _ t hf (by omega)
    · rw [if_neg hi] at hf ⊢
      exact hf

/-- Exit step of the batch loop: once the index reaches the input length
the accumulated text is returned, whatever the remaining fuel. -/
theorem batchAux_exit (bits : List Nat) (f : Nat) (s : BatchState)
    (hi : ¬s.i < bits.length) : decodeBatchAux bits f s = some s.text := by
  cases f with
  | zero =>
    simp only [decodeBatchAux]
    rw [if_neg hi]
  | succ f =>
    simp only [decodeBatchAux]
    rw [if_neg hi]

/-- Accumulation step of the batch loop: the current bit joins the buffer
(which stays below 7 bits) and the index advances by one. -/
theorem batchAux_step_acc (bits : List Nat) (f : Nat) (s : BatchState) (b : Nat)
    (hb : bits.getD s.i 2 = b) (hi : s.i < bits.length)
    (h1 : ¬((s.buffer ++ [b]).length = 1 ∧ b ≠ 0))
    (h7 : (s.buffer ++ [b]).length < 7) :
    decodeBatchAux bits (f + 1) s
      = decodeBatchAux bits f ⟨s.i + 1, s.buffer ++ [b], s.mode, s.text⟩ := by
  simp only [decodeBatchAux]
  rw [if_pos hi, hb, if_neg h1, if_neg (by omega)]

/-- Completed-frame step of the batch loop, mode-switch case. -/
theorem batchAux_step_frame_sw (bits : List Nat) (f : Nat) (s : BatchState)
    (b : Nat) (m2 : Mode) (hb : bits.getD s.i 2 = b) (hi : s.i < bits.length)
    (h1 : ¬((s.buffer ++ [b]).length = 1 ∧ b ≠ 0))
    (h7 : 7 ≤ (s.buffer ++ [b]).length)
    (hz : (s.buffer ++ [b]).getD 0 2 = 0)
    (hk : 1 ≤ countOnes (bits.drop s.i))
    (hc : decode_ita2_char_batch (((s.buffer ++ [b]).drop 1).take 5) s.mode
      = ItaChar.sw m2) :
    decodeBatchAux bits (f + 1) s
      = decodeBatchAux bits f ⟨s.i + countOnes (bits.drop s.i), [], m2, s.text⟩ := by
  simp only [decodeBatchAux]
  rw [if_pos hi, hb, if_neg h1, if_pos h7,
    if_neg (by simp only [ne_eq, not_not]; exact hz), if_pos hk, hc]

/-- Completed-frame step of the batch loop, literal-character case. -/
theorem batchAux_step_frame_ch (bits : List Nat) (f : Nat) (s : BatchState)
    (b : Nat) (c : Char) (hb : bits.getD s.i 2 = b) (hi : s.i < bits.length)
    (h1 : ¬((s.buffer ++ [b]).length = 1 ∧ b ≠ 0))
    (h7 : 7 ≤ (s.buffer ++ [b]).length)
    (hz : (s.buffer ++ [b]).getD 0 2 = 0)
    (hk : 1 ≤ countOnes (bits.drop s.i))
    (hc : decode_ita2_char_batch (((s.buffer ++ [b]).drop 1).take 5) s.mode
      = ItaChar.ch c) :
    decodeBatchAux bits (f + 1) s
      = decodeBatchAux bits f
          ⟨s.i + countOnes (bits.drop s.i), [], s.mode, s.text ++ [c]⟩ := by
  simp only [decodeBatchAux]
  rw [if_pos hi, hb, if_neg h1, if_pos h7,
    if_neg (by simp only [ne_eq, not_not]; exact hz), if_pos hk, hc]

/-- Batch half of the FIGS-switch-then-'5' scenario: the same bit sequence
decodes to `['5']` in the batch decoder. -/
theorem figsFiveBatch (s : Nat) (hs : 1 ≤ s) :
    decode_bits_batch ([0, 1, 1, 0, 1, 1, 1, 0, 0, 0, 0, 0, 1] ++ List.replicate s 1)
      = some ['5'] := by
  obtain ⟨s2, rfl⟩ : ∃ s2, s = s2 + 1 := ⟨s - 1, by omega⟩
  set bits := [0, 1, 1, 0, 1, 1, 1, 0, 0, 0, 0, 0, 1] ++ List.replicate (s2 + 1) 1 with hbits
  have hlen : bits.length = 14 + s2 := by
    rw [hbits, List.length_append, List.length_replicate]
    have h13 : ([0, 1, 1, 0, 1, 1, 1, 0, 0, 0, 0, 0, 1] : List Nat).length = 13 := rfl
    omega
  have hk13 : countOnes (bits.drop 13) = s2 + 1 := countOnes_replicate_one (s2 + 1)
  have e0 : decodeBatchAux bits 14 ⟨0, [], Mode.LAT, []⟩
      = decodeBatchAux bits 13 ⟨1, [0], Mode.LAT, []⟩ :=
    batchAux_step_acc bits 13 ⟨0, [], Mode.LAT, []⟩ 0 rfl (by show (0 : Nat) < bits.length; omega) (by decide) (by decide)
  have e1 : decodeBatchAux bits 13 ⟨1, [0], Mode.LAT, []⟩
      = decodeBatchAux bits 12 ⟨2, [0, 1], Mode.LAT, []⟩ :=
    batchAux_step_acc bits 12 ⟨1, [0], Mode.LAT, []⟩ 1 rfl (by show (1 : Nat) < bits.length; omega) (by decide) (by decide)
  have e2 : decodeBatchAux bits 12 ⟨2, [0, 1], Mode.LAT, []⟩
      = decodeBatchAux bits 11 ⟨3, [0, 1, 1], Mode.LAT, []⟩ :=
    batchAux_step_acc bits 11 ⟨2, [0, 1], Mode.LAT, []⟩ 1 rfl (by show (2 : Nat) < bits.length; omega) (by decide) (by decide)
  have e3 : decodeBatchAux bits 11 ⟨3, [0, 1, 1], Mode.LAT, []⟩
      = decodeBatchAux bits 10 ⟨4, [0, 1, 1, 0], Mode.LAT, []⟩ :=
    batchAux_step_acc bits 10 ⟨3, [0, 1, 1], Mode.LAT, []⟩ 0 rfl (by show (3 : Nat) < bits.length; omega) (by decide) (by decide)
  have e4 : decodeBatchAux bits 10 ⟨4, [0, 1, 1, 0], Mode.LAT, []⟩
      = decodeBatchAux bits 9 ⟨5, [0, 1, 1, 0, 1], Mode.LAT, []⟩ :=
    batchAux_step_acc bits 9 ⟨4, [0, 1, 1, 0], Mode.LAT, []⟩ 1 rfl (by show (4 : Nat) < bits.length; omega) (by decide) (by decide)
  have e5 : decodeBatchAux bits 9 ⟨5, [0, 1, 1, 0, 1], Mode.LAT, []⟩
      = decodeBatchAux bits 8 ⟨6, [0, 1, 1, 0, 1, 1], Mode.LAT, []⟩ :=
    batchAux_step_acc bits 8 ⟨5, [0, 1, 1, 0, 1], Mode.LAT, []⟩ 1 rfl (by show (5 : Nat) < bits.length; omega) (by decide) (by decide)
  have e6 : decodeBatchAux bits 8 ⟨6, [0, 1, 1, 0, 1, 1], Mode.LAT, []⟩
      = decodeBatchAux bits 7 ⟨7, [], Mode.FIGS, []⟩ :=
    batchAux_step_frame_sw bits 7 ⟨6, [0, 1, 1, 0, 1, 1], Mode.LAT, []⟩ 1 Mode.FIGS rfl (by show (6 : Nat) < bits.length; omega) (by decide) (by decide) (by decide) (show (1 : Nat) ≤ countOnes (bits.drop 6) from Nat.le_refl 1) (by decide)
  have e7 : decodeBatchAux bits 7 ⟨7, [], Mode.FIGS, []⟩
      = decodeBatchAux bits 6 ⟨8, [0], Mode.FIGS, []⟩ :=
    batchAux_step_acc bits 6 ⟨7, [], Mode.FIGS, []⟩ 0 rfl (by show (7 : Nat) < bits.length; omega) (by decide) (by decide)
  have e8 : decodeBatchAux bits 6 ⟨8, [0], Mode.FIGS, []⟩
      = decodeBatchAux bits 5 ⟨9, [0, 0], Mode.FIGS, []⟩ :=
    batchAux_step_acc bits 5 ⟨8, [0], Mode.FIGS, []⟩ 0 rfl (by show (8 : Nat) < bits.length; omega) (by decide) (by decide)
  have e9 : decodeBatchAux bits 5 ⟨9, [0, 0], Mode.FIGS, []⟩
      = decodeBatchAux bits 4 ⟨10, [0, 0, 0], Mode.FIGS, []⟩ :=
    batchAux_step_acc bits 4 ⟨9, [0, 0], Mode.FIGS, []⟩ 0 rfl (by show (9 : Nat) < bits.length; omega) (by decide) (by decide)
  have e10 : decodeBatchAux bits 4 ⟨10, [0, 0, 0], Mode.FIGS, []⟩
      = decodeBatchAux bits 3 ⟨11, [0, 0, 0, 0], Mode.FIGS, []⟩ :=
    batchAux_step_acc bits 3 ⟨10, [0, 0, 0], Mode.FIGS, []⟩ 0 rfl (by show (10 : Nat) < bits.length; omega) (by decide) (by decide)
  have e11 : decodeBatchAux bits 3 ⟨11, [0, 0, 0, 0], Mode.FIGS, []⟩
      = decodeBatchAux bits 2 ⟨12, [0, 0, 0, 0, 0], Mode.FIGS, []⟩ :=
    batchAux_step_acc bits 2 ⟨11, [0, 0, 0, 0], Mode.FIGS, []⟩ 0 rfl (by show (11 : Nat) < bits.length; omega) (by decide) (by decide)
  have e12 : decodeBatchAux bits 2 ⟨12, [0, 0, 0, 0, 0], Mode.FIGS, []⟩
      = decodeBatchAux bits 1 ⟨13, [0, 0, 0, 0, 0, 1], Mode.FIGS, []⟩ :=
    batchAux_step_acc bits 1 ⟨12, [0, 0, 0, 0, 0], Mode.FIGS, []⟩ 1 rfl (by show (12 : Nat) < bits.length; omega) (by decide) (by decide)
  have e13 : decodeBatchAux bits 1 ⟨13, [0, 0, 0, 0, 0, 1], Mode.FIGS, []⟩
      = decodeBatchAux bits 0 ⟨13 + countOnes (bits.drop 13), [], Mode.FIGS, ['5']⟩ :=
    batchAux_step_frame_ch bits 0 ⟨13, [0, 0, 0, 0, 0, 1], Mode.FIGS, []⟩ 1 '5' rfl (by show (13 : Nat) < bits.length; omega) (by decide) (by decide) (by decide) (by show (1 : Nat) ≤ countOnes (bits.drop 13); rw [hk13]; omega) (by decide)
  have eexit : decodeBatchAux bits 0
      ⟨13 + countOnes (bits.drop 13), [], Mode.FIGS, ['5']⟩ = some ['5'] :=
    batchAux_exit bits 0 ⟨13 + countOnes (bits.drop 13), [], Mode.FIGS, ['5']⟩
      (by show ¬13 + countOnes (bits.drop 13) < bits.length; rw [hk13, hlen]; omega)
  have h14 : decodeBatchAux bits 14 ⟨0, [], Mode.LAT, []⟩ = some ['5'] := by
    rw [e0, e1, e2, e3, e4, e5, e6, e7, e8, e9, e10, e11, e12, e13]
    exact eexit
  exact decodeBatchAux_mono bits 14 bits.length ⟨0, [], Mode.LAT, []⟩ ['5'] h14 (by omega)

/-- C5: starting in LAT mode, a properly framed FIGS mode-switch frame
(start 0, data `1,1,0,1,1`, stop 1) followed immediately by a properly
framed frame with data bits `0,0,0,0,1` and at least one stop bit decodes
to exactly the text `"5"` in both decoder variants, with no character
emitted for the mode-switch frame. -/
theorem c5_figs_then_five (s : Nat) (hs : 1 ≤ s) :
    (decode_bits ([0, 1, 1, 0, 1, 1, 1, 0, 0, 0, 0, 0, 1] ++ List.replicate s 1)
        Mode.LAT).1 = "5" ∧
    decode_bits_batch ([0, 1, 1, 0, 1, 1, 1, 0, 0, 0, 0, 0, 1] ++ List.replicate s 1)
      = some ['5'] := by
  constructor
  · show (decode19 ([0, 1, 1, 0, 1, 1, 1, 0, 0, 0, 0, 0, 1] ++ List.replicate s 1)
        Mode.LAT).1.asString = "5"
    rw [figsFiveStream s hs]
    rfl
  · exact figsFiveBatch s hs

/-- Witness for `c5_figs_then_five` with a single stop bit after the
second frame. -/
theorem c5_figs_then_five_witness :
    1 ≤ 1 ∧
    (decode_bits ([0, 1, 1, 0, 1, 1, 1, 0, 0, 0, 0, 0, 1] ++ List.replicate 1 1)
        Mode.LAT).1 = "5" ∧
    decode_bits_batch ([0, 1, 1, 0, 1, 1, 1, 0, 0, 0, 0, 0, 1] ++ List.replicate 1 1)
      = some ['5'] :=
  ⟨Nat.le_refl 1, (c5_figs_then_five 1 (Nat.le_refl 1)).1,
    (c5_figs_then_five 1 (Nat.le_refl 1)).2⟩

/-- The stop-bit scan over an appended list: if the run of ones exhausts
the first list it continues into the second, otherwise it stops inside the
first. -/
theorem countOnes_cons_one (rest : List Nat) :
    countOnes (1 :: rest) = countOnes rest + 1 := by
  simp [countOnes]

theorem countOnes_cons_ne (b : Nat) (rest : List Nat) (h : b ≠ 1) :
    countOnes (b :: rest) = 0 := by
  simp [countOnes, h]

theorem countOnes_append (a b : List Nat) :
    countOnes (a ++ b)
      = if countOnes a = a.length then a.length + countOnes b else countOnes a := by
  induction a with
  | nil => simp [countOnes]
  | cons x rest ih =>
    by_cases hx : x = 1
    · subst hx
      rw [List.cons_append, countOnes_cons_one, countOnes_cons_one, ih, List.length_cons]
      by_cases hr : countOnes rest = rest.length
      · rw [if_pos hr, if_pos (by omega)]
        omega
      · rw [if_neg hr, if_neg (by omega)]
    · rw [List.cons_append, countOnes_cons_ne _ _ hx, countOnes_cons_ne _ _ hx,
        List.length_cons, if_neg (by omega)]

/-- If the scan stops strictly inside `a`, appending changes nothing. -/
theorem countOnes_append_of_ne (a b : List Nat) (h : countOnes a ≠ a.length) :
    countOnes (a ++ b) = countOnes a := by
  rw [countOnes_append, if_neg h]

/-- If `a` is all ones, the scan continues into `b`. -/
theorem countOnes_append_of_eq (a b : List Nat) (h : countOnes a = a.length) :
    countOnes (a ++ b) = a.length + countOnes b := by
  rw [countOnes_append, if_pos h]

/-- Appending never shortens the leading run of ones. -/
theorem countOnes_le_append (a b : List Nat) : countOnes a ≤ countOnes (a ++ b) := by
  rw [countOnes_append]
  by_cases h : countOnes a = a.length
  · rw [if_pos h]
    omega
  · rw [if_neg h]

/-- Strong induction over lists by length. -/
theorem list_length_induction {P : List Nat → Prop}
    (h : ∀ l, (∀ l2 : List Nat, l2.length < l.length → P l2) → P l) :
    ∀ l, P l := by
  have haux : ∀ (n : Nat) (l : List Nat), l.length ≤ n → P l := by
    intro n
    induction n with
    | zero =>
      intro l hl
      exact h l (fun l2 h2 => absurd (Nat.lt_of_lt_of_le h2 hl) (by omega))
    | succ n ih =>
      intro l hl
      exact h l (fun l2 h2 => ih l2 (by omega))
  intro l
  exact haux l.length l le_rfl

/-- Leading mark (1) bits are skipped one at a time by the start-bit
search: dropping any prefix of the leading ones changes neither the
decoded text nor the final mode. -/
theorem decode19_drop_ones :
    ∀ (j : Nat) (l : List Nat) (m : Mode), j ≤ countOnes l →
      (decode19 (l.drop j) m).1 = (decode19 l m).1
        ∧ (decode19 (l.drop j) m).2.2 = (decode19 l m).2.2 := by
  intro j
  induction j with
  | zero =>
    intro l m _
    rw [List.drop_zero]
    exact ⟨rfl, rfl⟩
  | succ j ih =>
    intro l m hj
    cases l with
    | nil => simp [countOnes] at hj
    | cons b rest =>
      have hb : b = 1 := by
        by_contra hbne
        simp [countOnes, hbne] at hj
      subst hb
      have hcount : countOnes (1 :: rest) = countOnes rest + 1 := by
        simp [countOnes]
      by_cases h7 : 7 ≤ (1 :: rest).length
      · have hskip := decode19_skip (1 :: rest) m h7 (by simp [List.getD])
        have hdrop : (1 :: rest).drop (j + 1) = rest.drop j := rfl
        have := ih rest m (by omega)
        rw [hdrop, hskip]
        exact ⟨this.1.trans rfl, this.2.trans rfl⟩
      · have hshort : (1 :: rest).length < 7 := by omega
        have hshort2 : ((1 :: rest).drop (j + 1)).length < 7 := by
          rw [List.length_drop]
          omega
        rw [decode19_short _ m hshort, decode19_short _ m hshort2]
        exact ⟨rfl, rfl⟩

/-- After a full run of the streaming decoder, fewer than 7 bits remain
unconsumed. -/
theorem decode19_remainder_short :
    ∀ l : List Nat, ∀ m : Mode, (l.drop (decode19 l m).2.1).length < 7 := by
  refine list_length_induction ?_
  intro l ih m
  by_cases h7 : 7 ≤ l.length
  · have hpos : 0 < l.length := by omega
    by_cases hb : l.getD 0 2 = 0
    · by_cases hk : countOnes (l.drop 6) = 0
      · rw [decode19_nostop l m h7 hb hk]
        have := ih (l.drop 1) (by rw [List.length_drop]; omega) m
        rw [List.drop_drop, Nat.add_comm] at this
        exact this
      · cases hc : decode_ita2_char ((l.drop 1).take 5) m with
        | sw m2 =>
          rw [decode19_frame_sw l m m2 h7 hb hk hc]
          have := ih (l.drop (6 + countOnes (l.drop 6)))
            (by rw [List.length_drop]; omega) m2
          rw [List.drop_drop, Nat.add_comm] at this
          exact this
        | ch c =>
          rw [decode19_frame_ch l m c h7 hb hk hc]
          have := ih (l.drop (6 + countOnes (l.drop 6)))
            (by rw [List.length_drop]; omega) m
          rw [List.drop_drop, Nat.add_comm] at this
          exact this
    · rw [decode19_skip l m h7 hb]
      have := ih (l.drop 1) (by rw [List.length_drop]; omega) m
      rw [List.drop_drop, Nat.add_comm] at this
      exact this
  · rw [decode19_short l m (by omega)]
    rw [List.drop_zero]
    omega

/-- A code decodes to a mode switch exactly when it is in the mode-switch
table — independently of the current mode and of the mode tables. -/
theorem decodeIta2CharWith_sw_iff (tables : Mode → List (List Nat × Char))
    (code : List Nat) (mode m3 : Mode) :
    decodeIta2CharWith tables code mode = ItaChar.sw m3
      ↔ dictLookup MODE_SWITCH code = some m3 := by
  unfold decodeIta2CharWith
  cases hs : dictLookup MODE_SWITCH code with
  | none => cases ht : dictLookup (tables mode) code <;> simp
  | some mm => simp

/-- If a run of the streaming decoder emits no character from one start
mode, it emits none from any start mode: the consumed frames are all mode
switches, and switch classification is mode-independent. -/
theorem decode19_empty_text_any_mode :
    ∀ l : List Nat, ∀ m m2 : Mode,
      (decode19 l m).1 = [] → (decode19 l m2).1 = [] := by
  refine list_length_induction ?_
  intro l ih m m2 h
  by_cases h7 : 7 ≤ l.length
  · by_cases hb : l.getD 0 2 = 0
    · by_cases hk : countOnes (l.drop 6) = 0
      · rw [decode19_nostop l m h7 hb hk] at h
        rw [decode19_nostop l m2 h7 hb hk]
        exact ih (l.drop 1) (by rw [List.length_drop]; omega) m m2 h
      · cases hc : decode_ita2_char ((l.drop 1).take 5) m with
        | sw m3 =>
          rw [decode19_frame_sw l m m3 h7 hb hk hc] at h
          have hc2 : decode_ita2_char ((l.drop 1).take 5) m2 = ItaChar.sw m3 :=
            (decodeIta2CharWith_sw_iff ita2Table _ m2 m3).mpr
              ((decodeIta2CharWith_sw_iff ita2Table _ m m3).mp hc)
          rw [decode19_frame_sw l m2 m3 h7 hb hk hc2]
          exact h
        | ch c =>
          rw [decode19_frame_ch l m c h7 hb hk hc] at h
          exact absurd h (by simp)
    · rw [decode19_skip l m h7 hb] at h
      rw [decode19_skip l m2 h7 hb]
      exact ih (l.drop 1) (by rw [List.length_drop]; omega) m m2 h
  · rw [decode19_short l m2 (by omega)]

/-- If decoding a prefix emits no character, decoding an extension of it
from the original mode equals decoding it from the final mode of the prefix:
such a prefix contributes only mode switches, and a switch frame sets the
same target mode whatever mode it starts from. -/
theorem decode19_prefix_mode :
    ∀ l1 : List Nat, ∀ l2 : List Nat, ∀ m : Mode,
      (decode19 l1 m).1 = [] →
      decode19 (l1 ++ l2) m = decode19 (l1 ++ l2) (decode19 l1 m).2.2 := by
  refine list_length_induction ?_
  intro l1 ih l2 m h
  by_cases h7 : 7 ≤ l1.length
  · have hlenw : 7 ≤ (l1 ++ l2).length := by
      rw [List.length_append]
      omega
    have hgw : (l1 ++ l2).getD 0 2 = l1.getD 0 2 :=
      List.getD_append _ _ _ _ (by omega)
    have hd1w : (l1 ++ l2).drop 1 = l1.drop 1 ++ l2 :=
      List.drop_append_of_le_length (by omega)
    have hd6w : (l1 ++ l2).drop 6 = l1.drop 6 ++ l2 :=
      List.drop_append_of_le_length (by omega)
    have hlen6 : 1 ≤ (l1.drop 6).length := by
      rw [List.length_drop]
      omega
    by_cases hb : l1.getD 0 2 = 0
    · by_cases hk : countOnes (l1.drop 6) = 0
      · have hkw : countOnes ((l1 ++ l2).drop 6) = 0 := by
          rw [hd6w, countOnes_append_of_ne _ _ (by rw [hk]; omega)]
          exact hk
        rw [decode19_nostop l1 m h7 hb hk] at h
        have hmode : (decode19 l1 m).2.2 = (decode19 (l1.drop 1) m).2.2 := by
          rw [decode19_nostop l1 m h7 hb hk]
        rw [hmode, decode19_nostop (l1 ++ l2) m hlenw (hgw.trans hb) hkw,
          decode19_nostop (l1 ++ l2) _ hlenw (hgw.trans hb) hkw, hd1w,
          ih (l1.drop 1) (by rw [List.length_drop]; omega) l2 m h]
      · cases hc : decode_ita2_char ((l1.drop 1).take 5) m with
        | sw m3 =>
          rw [decode19_frame_sw l1 m m3 h7 hb hk hc] at h
          have hmode : (decode19 l1 m).2.2
              = (decode19 (l1.drop (6 + countOnes (l1.drop 6))) m3).2.2 := by
            rw [decode19_frame_sw l1 m m3 h7 hb hk hc]
          have hkwne : countOnes ((l1 ++ l2).drop 6) ≠ 0 := by
            rw [hd6w]
            intro hcon
            have hle := countOnes_le_append (l1.drop 6) l2
            rw [hcon] at hle
            exact hk (Nat.le_zero.mp hle)
          have hcw : decode_ita2_char (((l1 ++ l2).drop 1).take 5) m
              = ItaChar.sw m3 := by
            rw [hd1w, List.take_append_of_le_length (by rw [List.length_drop]; omega)]
            exact hc
          have hcw2 : decode_ita2_char (((l1 ++ l2).drop 1).take 5)
              ((decode19 l1 m).2.2) = ItaChar.sw m3 :=
            (decodeIta2CharWith_sw_iff ita2Table _ _ m3).mpr
              ((decodeIta2CharWith_sw_iff ita2Table _ m m3).mp hcw)
          rw [decode19_frame_sw (l1 ++ l2) m m3 hlenw (hgw.trans hb) hkwne hcw,
            decode19_frame_sw (l1 ++ l2) _ m3 hlenw (hgw.trans hb) hkwne hcw2]
        | ch c =>
          rw [decode19_frame_ch l1 m c h7 hb hk hc] at h
          exact absurd h (by simp)
    · rw [decode19_skip l1 m h7 hb] at h
      have hmode : (decode19 l1 m).2.2 = (decode19 (l1.drop 1) m).2.2 := by
        rw [decode19_skip l1 m h7 hb]
      have hgwb : (l1 ++ l2).getD 0 2 ≠ 0 := by
        rw [hgw]
        exact hb
      rw [hmode, decode19_skip (l1 ++ l2) m hlenw hgwb,
        decode19_skip (l1 ++ l2) _ hlenw hgwb, hd1w,
        ih (l1.drop 1) (by rw [List.length_drop]; omega) l2 m h]
  · rw [decode19_short l1 m (by omega)]

/-- Decomposition of a streaming decode over an appended input: decoding
`l1 ++ l2` emits the characters of decoding `l1`, followed by the
characters of decoding the unconsumed remainder of `l1` prepended to `l2` from
the final mode of `l1`; the final modes agree likewise.  (Consumed counts need
not decompose: a stop run crossing the boundary is consumed as stop bits by
the whole run but skipped as noise by the continuation.) -/
theorem decode19_append_decomp :
    ∀ l1 : List Nat, ∀ l2 : List Nat, ∀ m : Mode,
      (decode19 (l1 ++ l2) m).1
        = (decode19 l1 m).1
          ++ (decode19 (l1.drop (decode19 l1 m).2.1 ++ l2) (decode19 l1 m).2.2).1
      ∧ (decode19 (l1 ++ l2) m).2.2
        = (decode19 (l1.drop (decode19 l1 m).2.1 ++ l2) (decode19 l1 m).2.2).2.2 := by
  refine list_length_induction ?_
  intro l1 ih l2 m
  by_cases h7 : 7 ≤ l1.length
  · have hlenw : 7 ≤ (l1 ++ l2).length := by
      rw [List.length_append]
      omega
    have hgw : (l1 ++ l2).getD 0 2 = l1.getD 0 2 :=
      List.getD_append _ _ _ _ (by omega)
    have hd1w : (l1 ++ l2).drop 1 = l1.drop 1 ++ l2 :=
      List.drop_append_of_le_length (by omega)
    have hd6w : (l1 ++ l2).drop 6 = l1.drop 6 ++ l2 :=
      List.drop_append_of_le_length (by omega)
    have hlen6 : 1 ≤ (l1.drop 6).length := by
      rw [List.length_drop]
      omega
    by_cases hb : l1.getD 0 2 = 0
    · by_cases hk : countOnes (l1.drop 6) = 0
      · have hkw : countOnes ((l1 ++ l2).drop 6) = 0 := by
          rw [hd6w, countOnes_append_of_ne _ _ (by rw [hk]; omega)]
          exact hk
        rw [decode19_nostop (l1 ++ l2) m hlenw (hgw.trans hb) hkw,
          decode19_nostop l1 m h7 hb hk, hd1w]
        dsimp only
        have hdd : l1.drop ((decode19 (l1.drop 1) m).2.1 + 1)
            = (l1.drop 1).drop (decode19 (l1.drop 1) m).2.1 := by
          rw [List.drop_drop, Nat.add_comm]
        rw [hdd]
        exact ih (l1.drop 1) (by rw [List.length_drop]; omega) l2 m
      · have hdata : ((l1 ++ l2).drop 1).take 5 = (l1.drop 1).take 5 := by
          rw [hd1w, List.take_append_of_le_length (by rw [List.length_drop]; omega)]
        cases hc : decode_ita2_char ((l1.drop 1).take 5) m with
        | sw m3 =>
          have hcw : decode_ita2_char (((l1 ++ l2).drop 1).take 5) m
              = ItaChar.sw m3 := by
            rw [hdata]
            exact hc
          by_cases hfull : countOnes (l1.drop 6) = (l1.drop 6).length
          · have hkw : countOnes ((l1 ++ l2).drop 6)
                = (l1.length - 6) + countOnes l2 := by
              rw [hd6w, countOnes_append_of_eq _ _ hfull, List.length_drop]
            have hkwne : countOnes ((l1 ++ l2).drop 6) ≠ 0 := by
              rw [hkw]
              omega
            have hdall : l1.drop (6 + countOnes (l1.drop 6)) = [] := by
              apply List.drop_eq_nil_of_le
              rw [hfull, List.length_drop]
              omega
            have hwdrop : (l1 ++ l2).drop (6 + countOnes ((l1 ++ l2).drop 6))
                = l2.drop (countOnes l2) := by
              rw [hkw,
                show 6 + ((l1.length - 6) + countOnes l2)
                  = l1.length + countOnes l2 from by omega]
              exact List.drop_append _
            rw [decode19_frame_sw (l1 ++ l2) m m3 hlenw (hgw.trans hb) hkwne hcw,
              decode19_frame_sw l1 m m3 h7 hb hk hc]
            dsimp only
            rw [hdall, show decode19 ([] : List Nat) m3 = ([], 0, m3) from rfl]
            dsimp only
            rw [List.nil_append, Nat.zero_add, hdall, List.nil_append, hwdrop]
            exact decode19_drop_ones (countOnes l2) l2 m3 le_rfl
          · have hkw : countOnes ((l1 ++ l2).drop 6) = countOnes (l1.drop 6) := by
              rw [hd6w, countOnes_append_of_ne _ _ hfull]
            have hklt : countOnes (l1.drop 6) < (l1.drop 6).length :=
              lt_of_le_of_ne (countOnes_le_length _) hfull
            have h6k : 6 + countOnes (l1.drop 6) ≤ l1.length := by
              rw [List.length_drop] at hklt
              omega
            have hkwne : countOnes ((l1 ++ l2).drop 6) ≠ 0 := by
              rw [hkw]
              exact hk
            have hwdrop : (l1 ++ l2).drop (6 + countOnes ((l1 ++ l2).drop 6))
                = l1.drop (6 + countOnes (l1.drop 6)) ++ l2 := by
              rw [hkw]
              exact List.drop_append_of_le_length h6k
            rw [decode19_frame_sw (l1 ++ l2) m m3 hlenw (hgw.trans hb) hkwne hcw,
              decode19_frame_sw l1 m m3 h7 hb hk hc]
            dsimp only
            rw [hwdrop]
            have hdd : l1.drop ((decode19 (l1.drop (6 + countOnes (l1.drop 6))) m3).2.1
                  + (6 + countOnes (l1.drop 6)))
                = (l1.drop (6 + countOnes (l1.drop 6))).drop
                    ((decode19 (l1.drop (6 + countOnes (l1.drop 6))) m3).2.1) := by
              rw [List.drop_drop, Nat.add_comm]
            rw [hdd]
            exact ih (l1.drop (6 + countOnes (l1.drop 6)))
              (by rw [List.length_drop]; omega) l2 m3
        | ch c =>
          have hcw : decode_ita2_char (((l1 ++ l2).drop 1).take 5) m
              = ItaChar.ch c := by
            rw [hdata]
            exact hc
          by_cases hfull : countOnes (l1.drop 6) = (l1.drop 6).length
          · have hkw : countOnes ((l1 ++ l2).drop 6)
                = (l1.length - 6) + countOnes l2 := by
              rw [hd6w, countOnes_append_of_eq _ _ hfull, List.length_drop]
            have hkwne : countOnes ((l1 ++ l2).drop 6) ≠ 0 := by
              rw [hkw]
              omega
            have hdall : l1.drop (6 + countOnes (l1.drop 6)) = [] := by
              apply List.drop_eq_nil_of_le
              rw [hfull, List.length_drop]
              omega
            have hwdrop : (l1 ++ l2).drop (6 + countOnes ((l1 ++ l2).drop 6))
                = l2.drop (countOnes l2) := by
              rw [hkw,
                show 6 + ((l1.length - 6) + countOnes l2)
                  = l1.length + countOnes l2 from by omega]
              exact List.drop_append _
            rw [decode19_frame_ch (l1 ++ l2) m c hlenw (hgw.trans hb) hkwne hcw,
              decode19_frame_ch l1 m c h7 hb hk hc]
            dsimp only
            rw [hdall, show decode19 ([] : List Nat) m = ([], 0, m) from rfl]
            dsimp only
            rw [Nat.zero_add, hdall, List.nil_append, hwdrop, List.cons_append,
              List.nil_append]
            have hones := decode19_drop_ones (countOnes l2) l2 m le_rfl
            exact ⟨by rw [hones.1], hones.2⟩
          · have hkw : countOnes ((l1 ++ l2).drop 6) = countOnes (l1.drop 6) := by
              rw [hd6w, countOnes_append_of_ne _ _ hfull]
            have hklt : countOnes (l1.drop 6) < (l1.drop 6).length :=
              lt_of_le_of_ne (countOnes_le_length _) hfull
            have h6k : 6 + countOnes (l1.drop 6) ≤ l1.length := by
              rw [List.length_drop] at hklt
              omega
            have hkwne : countOnes ((l1 ++ l2).drop 6) ≠ 0 := by
              rw [hkw]
              exact hk
            have hwdrop : (l1 ++ l2).drop (6 + countOnes ((l1 ++ l2).drop 6))
                = l1.drop (6 + countOnes (l1.drop 6)) ++ l2 := by
              rw [hkw]
              exact List.drop_append_of_le_length h6k
            rw [decode19_frame_ch (l1 ++ l2) m c hlenw (hgw.trans hb) hkwne hcw,
              decode19_frame_ch l1 m c h7 hb hk hc]
            dsimp only
            rw [hwdrop]
            have hdd : l1.drop ((decode19 (l1.drop (6 + countOnes (l1.drop 6))) m).2.1
                  + (6 + countOnes (l1.drop 6)))
                = (l1.drop (6 + countOnes (l1.drop 6))).drop
                    ((decode19 (l1.drop (6 + countOnes (l1.drop 6))) m).2.1) := by
              rw [List.drop_drop, Nat.add_comm]
            rw [hdd, List.cons_append]
            have hih := ih (l1.drop (6 + countOnes (l1.drop 6)))
              (by rw [List.length_drop]; omega) l2 m
            exact ⟨by rw [hih.1], hih.2⟩
    · have hgwb : (l1 ++ l2).getD 0 2 ≠ 0 := by
        rw [hgw]
        exact hb
      rw [decode19_skip (l1 ++ l2) m hlenw hgwb, decode19_skip l1 m h7 hb, hd1w]
      dsimp only
      have hdd : l1.drop ((decode19 (l1.drop 1) m).2.1 + 1)
          = (l1.drop 1).drop (decode19 (l1.drop 1) m).2.1 := by
        rw [List.drop_drop, Nat.add_comm]
      rw [hdd]
      exact ih (l1.drop 1) (by rw [List.length_drop]; omega) l2 m
  · rw [decode19_short l1 m (by omega)]
    dsimp only
    rw [List.drop_zero, List.nil_append]
    exact ⟨rfl, rfl⟩

/-- One poll of `_process_decoding` at bit level with the decoded
characters kept raw (no newline formatting): returns the emitted
characters, the updated backlog and the persisted mode. -/
def pollRaw (bits : List Nat) (mode : Mode) : List Char × List Nat × Mode :=
  if bits.length < 7 then ([], bits, mode)
  else if (decode19 bits mode).1 ≠ [] then
    ((decode19 bits mode).1, bits.drop (decode19 bits mode).2.1,
      (decode19 bits mode).2.2)
  else ([], bits, (decode19 bits mode).2.2)

/-- A streaming session at bit level: each chunk is appended to the bit
backlog and followed by one poll; the raw decoded characters of all polls
are concatenated. -/
def session_raw : List (List Nat) → List Nat → Mode → List Char
  | [], _, _ => []
  | c :: rest, backlog, mode =>
    (pollRaw (backlog ++ c) mode).1
      ++ session_raw rest (pollRaw (backlog ++ c) mode).2.1
          (pollRaw (backlog ++ c) mode).2.2

/-- The same streaming session with the per-poll output formatting of
`_process_decoding` (carriage returns to newlines, then newline runs
collapsed), concatenating the printed fragments. -/
def session_fmt : List (List Nat) → List Nat → Mode → String
  | [], _, _ => ""
  | c :: rest, backlog, mode =>
    (process_decoding (backlog ++ c) mode).1
      ++ session_fmt rest (process_decoding (backlog ++ c) mode).2.1
          (process_decoding (backlog ++ c) mode).2.2

/-- A chunked session whose backlog decodes to no pending text produces
exactly the raw decoded text of the whole remaining input. -/
theorem session_raw_eq_whole :
    ∀ (chunks : List (List Nat)) (b : List Nat) (m : Mode),
      (decode19 b m).1 = [] →
      session_raw chunks b m = (decode19 (b ++ chunks.flatten) m).1 := by
  intro chunks
  induction chunks with
  | nil =>
    intro b m h
    simp only [session_raw, List.flatten_nil, List.append_nil]
    exact h.symm
  | cons c rest ih =>
    intro b m h
    simp only [session_raw, List.flatten_cons]
    by_cases hlt : (b ++ c).length < 7
    · have hpoll : pollRaw (b ++ c) m = ([], b ++ c, m) := by
        unfold pollRaw
        rw [if_pos hlt]
      rw [hpoll]
      dsimp only
      have hempty : (decode19 (b ++ c) m).1 = [] := by
        rw [decode19_short _ _ hlt]
      rw [ih (b ++ c) m hempty, List.nil_append, ← List.append_assoc]
    · by_cases ht : (decode19 (b ++ c) m).1 = []
      · have hpoll : pollRaw (b ++ c) m
            = ([], b ++ c, (decode19 (b ++ c) m).2.2) := by
          unfold pollRaw
          rw [if_neg (by omega), if_neg (by simp [ht])]
        rw [hpoll]
        dsimp only
        have hempty2 : (decode19 (b ++ c) ((decode19 (b ++ c) m).2.2)).1 = [] :=
          decode19_empty_text_any_mode (b ++ c) m _ ht
        rw [ih (b ++ c) _ hempty2, List.nil_append, ← List.append_assoc,
          decode19_prefix_mode (b ++ c) rest.flatten m ht]
      · have hpoll : pollRaw (b ++ c) m
            = ((decode19 (b ++ c) m).1,
              (b ++ c).drop (decode19 (b ++ c) m).2.1,
              (decode19 (b ++ c) m).2.2) := by
          unfold pollRaw
          rw [if_neg (by omega), if_pos (by simp [ht])]
        rw [hpoll]
        dsimp only
        have hshort : ((b ++ c).drop (decode19 (b ++ c) m).2.1).length < 7 :=
          decode19_remainder_short (b ++ c) m
        have hempty3 : (decode19 ((b ++ c).drop (decode19 (b ++ c) m).2.1)
            ((decode19 (b ++ c) m).2.2)).1 = [] := by
          rw [decode19_short _ _ hshort]
        rw [ih _ _ hempty3, ← List.append_assoc]
        exact (decode19_append_decomp (b ++ c) rest.flatten m).1.symm

/-- C4 counterexample: the same 14-bit sequence (a carriage-return frame
followed by a line-feed frame) fed to the streaming session in two chunks
prints `"\n\n"`, while delivered as one chunk it prints `"\n"` — the
per-poll newline collapsing does not act across poll boundaries, so
chunked and whole delivery yield different cumulative output. -/
theorem c4_chunked_format_counterexample :
    [[0, 0, 0, 0, 1, 0, 1], [0, 0, 1, 0, 0, 0, 1]].flatten
        = ([[0, 0, 0, 0, 1, 0, 1, 0, 0, 1, 0, 0, 0, 1]] :
            List (List Nat)).flatten ∧
    session_fmt [[0, 0, 0, 0, 1, 0, 1], [0, 0, 1, 0, 0, 0, 1]] [] Mode.LAT
        = "\n\n" ∧
    session_fmt [[0, 0, 0, 0, 1, 0, 1, 0, 0, 1, 0, 0, 0, 1]] [] Mode.LAT
        = "\n" := by decide

/-- C4 (amended): batch decoding is a pure function of the bit sequence,
so decoding the same sequence twice yields identical output; and a
streaming session fed the same bit sequence in arbitrary chunks — each
chunk appended to the backlog and followed by a poll — yields the same
cumulative RAW decoded character stream as the whole sequence decoded at
once.  (With the per-poll newline formatting applied the outputs can
differ, see the counterexample.) -/
theorem c4_determinism_and_chunked_raw :
    (∀ bits : List Nat, decode_bits_batch bits = decode_bits_batch bits) ∧
    ∀ chunks : List (List Nat),
      session_raw chunks [] Mode.LAT = (decode19 chunks.flatten Mode.LAT).1 := by
  refine ⟨fun _ => rfl, fun chunks => ?_⟩
  have h := session_raw_eq_whole chunks [] Mode.LAT rfl
  rwa [List.nil_append] at h
